import Mathlib

/-!
Verification of the Connect6Solver repository core: the SGF lexer/parser
(src/sgf_tool/lexer.py, src/sgf_tool/parser.py), the solver tree and MCTS
operations (src/Solver/tree.py, src/Solver/solver_node.py), the orchestrator
(src/Solver/solver.py) and the oracle-output decoding utilities
(src/Solver/utils.py, src/Solver/engine.py).

Python code is shallowly embedded: objects on the Python heap become records
in an index-addressed arena (`Arena`), mutation becomes explicit
arena-passing, and Python exceptions become `Except Err`.  Floating point
enters only through the UCT exploration term; it is abstracted by a
function parameter (`sqrtlog`) where needed, and scores elsewhere are exact
rationals (only equality with the exact constants 1.0 and -1.0 is ever
tested by the code, which is faithful in the rational model).

The files `sgf_tool/node.py` and `sgf_tool/exceptions.py` are imported by
the sources but are not present in the repository snapshot; the node
operations (`add_child`, `get_child`, `detach`, iteration) are modelled
from the spec, and each such definition is marked `Modelled from the spec:`
in its doc comment.
-/

set_option autoImplicit false

namespace C6S

/-- Embeds `BoardState` from src/Solver/types.py: UNKNOWN = -1,
BLACK_WIN = 0, WHITE_WIN = 1. -/
inductive BoardState where
  | UNKNOWN
  | BLACK_WIN
  | WHITE_WIN
  deriving DecidableEq, Repr, Inhabited

/-- Python exceptions and error conditions raised by the embedded code.
Lexical and SGF syntax errors carry the offending byte offsets, matching
the offset-tagged exceptions of sgf_tool. -/
inductive Err where
  /-- LexicalError from the lexer: invalid character at [start, stop). -/
  | lexical (start stop : Nat)
  /-- SGFError raised by the parser with a message tag and offsets. -/
  | unexpectedLeftParen (start stop : Nat)
  | unexpectedRightParen (start stop : Nat)
  | unmatchedRightParen (start stop : Nat)
  | unexpectedSemicolon (start stop : Nat)
  | unexpectedTag (start stop : Nat)
  | unexpectedValue (start stop : Nat)
  | unmatchedLeftParen (start stop : Nat)
  | unmatchedParens (start stop : Nat)
  /-- Python ZeroDivisionError (e.g. `ch.winrate / ch.visit_count` with
  `visit_count == 0` in MCTS.selection). -/
  | zeroDivisionError
  /-- Python ValueError (math domain error, unknown result token,
  or a failed tuple unpacking of str.split). -/
  | valueError
  /-- Python TypeError (calling a method with the wrong number of
  arguments). -/
  | typeError
  /-- Python NameError (referencing an undefined variable such as
  `is_black_turn` in Tree.update_node_status). -/
  | nameError
  /-- Python AttributeError (e.g. `Tree.collect_child_moves` missing). -/
  | attributeError
  /-- Python RuntimeError (dummy parser root given a second child). -/
  | runtimeError
  /-- Python AssertionError (`assert root is not None` in SGFParser.parse). -/
  | assertionError
  /-- Python IndexError (popping from an empty list). -/
  | indexError
  /-- Fuel exhaustion of the embedding for an unbounded Python loop; never
  reached on well-formed inputs. -/
  | fuelError
  deriving DecidableEq, Repr

/-- Embeds `SolverNode` from src/Solver/solver_node.py together with the
intrusive-tree fields of the (spec-modelled, §3) base node: an ordered
property map, parent / first-child / next-sibling links as arena indices,
a child count, plus the search statistics `winrate`, `visit_count`,
`status` initialised by `SolverNode.__init__`. -/
structure SolverNode where
  props : List (List Char × List (List Char)) := []
  parent : Option Nat := none
  child : Option Nat := none
  nextSibling : Option Nat := none
  numChildren : Nat := 0
  winrate : Rat := 0
  visitCount : Nat := 0
  status : BoardState := BoardState.UNKNOWN
  deriving DecidableEq, Repr, Inhabited

/-- Python heap of nodes: an arena addressed by index (spec §9 design
note: "represent as an arena of nodes addressed by index"). -/
abbrev Arena := List SolverNode

/-- Reads a node from the arena. -/
def getNode (a : Arena) (i : Nat) : Option SolverNode := a.get? i

/-- Replaces the node at index `i` (mutation of one Python object). -/
def setNode (a : Arena) (i : Nat) (n : SolverNode) : Arena := a.set i n

/-- Applies a field update to the node at index `i`. -/
def modifyNode (a : Arena) (i : Nat) (f : SolverNode → SolverNode) : Arena :=
  match a.get? i with
  | none => a
  | some n => a.set i (f n)

/-- Embeds `result_to_winrate` from src/Solver/utils.py: the fixed
vocabulary MAPPING from result tokens to scores, raising ValueError for a
token outside the vocabulary. -/
def result_to_winrate (result : List Char) : Except Err Rat :=
  if result = "B:w".toList then .ok 1
  else if result = "B:a_w".toList then .ok (9/10)
  else if result = "a-b:B3".toList then .ok (7/10)
  else if result = "a-b:B2".toList then .ok (5/10)
  else if result = "a-b:B1".toList then .ok (3/10)
  else if result = "a-b:stable".toList then .ok 0
  else if result = "a-b:unstable".toList then .ok 0
  else if result = "a-b:w1".toList then .ok (-(3/10))
  else if result = "a-b:w2".toList then .ok (-(5/10))
  else if result = "a-b:w3".toList then .ok (-(7/10))
  else if result = "W:a_w".toList then .ok (-(9/10))
  else if result = "W:w".toList then .ok (-1)
  else .error .valueError

/-- The domain of the MAPPING dictionary in `result_to_winrate`. -/
def winrateVocab : List (List Char) :=
  ["B:w".toList, "B:a_w".toList, "a-b:B3".toList, "a-b:B2".toList,
   "a-b:B1".toList, "a-b:stable".toList, "a-b:unstable".toList,
   "a-b:w1".toList, "a-b:w2".toList, "a-b:w3".toList, "W:a_w".toList,
   "W:w".toList]

/-- Embeds `SGFTokenType` from src/sgf_tool/lexer.py. -/
inductive SGFTokenType where
  | LEFT_PAREN
  | RIGHT_PAREN
  | SEMICOLON
  | TAG
  | EMPTY_VALUE
  | VALUE
  | IGNORE
  deriving DecidableEq, Repr

/-- Embeds `SGFToken` from src/sgf_tool/lexer.py: token type, matched
text, and [start, stop) offsets. -/
structure SGFToken where
  type : SGFTokenType
  value : List Char
  start : Nat
  stop : Nat
  deriving DecidableEq, Repr

/-- Character class of the regex `\w` (ASCII model: letters, digits,
underscore), used by the TAG rule. -/
def isWordChar (c : Char) : Bool :=
  ('a' ≤ c ∧ c ≤ 'z') ∨ ('A' ≤ c ∧ c ≤ 'Z') ∨ ('0' ≤ c ∧ c ≤ '9') ∨ c = '_'

/-- Character class of the regex `\s` as Python defines it for ASCII:
space, tab, newline, carriage return, vertical tab, form feed. -/
def isSpaceChar (c : Char) : Bool :=
  c = ' ' ∨ c = '\t' ∨ c = '\n' ∨ c = '\r' ∨ c = '\x0b' ∨ c = '\x0c'

/-- Scan implementing the lazy regex `\[[\S\s]*?[^\\]\]` of the VALUE rule
in `SGFTokenRules` (src/sgf_tool/lexer.py): starting with `prev` the
character at position `j - 1`, returns the least position `j' ≥ j` whose
character is a closing bracket not immediately preceded by a backslash,
or `none` if the input ends first. -/
def valueEnd (prev : Char) : List Char → Nat → Option Nat
  | [], _ => none
  | c :: rest, j =>
    if c = ']' ∧ prev ≠ '\\' then some j else valueEnd c rest (j + 1)

/-- Embeds `SGFLexer.next_token` from src/sgf_tool/lexer.py: tries the
rules of `SGFTokenRules` in order at position `i` (`re.match` anchors at
the position), returns `none` past the end of input, and raises an
offset-tagged LexicalError when no rule matches. -/
def next_token (s : List Char) (i : Nat) : Except Err (Option SGFToken) :=
  match s.get? i with
  | none => .ok none
  | some c =>
    if c = '(' then .ok (some ⟨.LEFT_PAREN, ['('], i, i + 1⟩)
    else if c = ')' then .ok (some ⟨.RIGHT_PAREN, [')'], i, i + 1⟩)
    else if c = ';' then .ok (some ⟨.SEMICOLON, [';'], i, i + 1⟩)
    else
      let wrun := (s.drop i).takeWhile isWordChar
      if wrun ≠ [] then .ok (some ⟨.TAG, wrun, i, i + wrun.length⟩)
      else if c = '[' ∧ s.get? (i + 1) = some ']' then
        .ok (some ⟨.EMPTY_VALUE, ['[', ']'], i, i + 2⟩)
      else if c = '[' then
        match s.drop (i + 1) with
        | [] => .error (.lexical i (i + 1))
        | c1 :: rest =>
          match valueEnd c1 rest (i + 2) with
          | some j => .ok (some ⟨.VALUE, (s.drop i).take (j + 1 - i), i, j + 1⟩)
          | none => .error (.lexical i (i + 1))
      else
        let srun := (s.drop i).takeWhile isSpaceChar
        if srun ≠ [] then .ok (some ⟨.IGNORE, srun, i, i + srun.length⟩)
        else .error (.lexical i (i + 1))

/-- Runs `next_token` to exhaustion from position `i`; the fuel bounds the
unbounded Python loop and is never exhausted when it exceeds the input
length, since every token consumes at least one character. -/
def lexAll (s : List Char) : Nat → Nat → Except Err (List SGFToken)
  | 0, _ => .error .fuelError
  | fuel + 1, i =>
    match next_token s i with
    | .error e => .error e
    | .ok none => .ok []
    | .ok (some t) => (lexAll s fuel t.stop).map (t :: ·)

/-- Embeds the bracketed-value loop of `SGFLexerManual._next_token` from
src/sgf_tool/lexer.py (the character-by-character lexer in the same
source file), which implements full escaping: a backslash escapes the
following character, so it escapes the closing bracket and escapes the
backslash itself.  Returns the accumulated value text and the stream
position just past the closing bracket, or an end-of-input error.  This
serves as the formalisation of the escaping behaviour the claim C9
attributes to the lexer. -/
def manualValueLoop (escape : Bool) (value : List Char) : List Char → Nat → Except Err (List Char × Nat)
  | [], pos => .error (.lexical pos pos)
  | c :: rest, pos =>
    if c = ']' ∧ escape = false then .ok (value, pos + 1)
    else if c = '\\' ∧ escape = false then manualValueLoop true value rest (pos + 1)
    else manualValueLoop false (value ++ [c]) rest (pos + 1)

/-- Replaces the values of key `k` in an ordered property map, appending
the pair at the end when the key is new.  Modelled from the spec: §3
describes the node's property storage as "an ordered mapping from
property key to an ordered list of string values" (node.py is absent
from the snapshot). -/
def setKey (k : List Char) (vs : List (List Char)) : List (List Char × List (List Char)) → List (List Char × List (List Char))
  | [] => [(k, vs)]
  | (k', vs') :: rest => if k' = k then (k, vs) :: rest else (k', vs') :: setKey k vs rest

/-- Walks the `next_sibling` chain to its last element.  Modelled from
the spec: §3 says children of one parent form a singly-linked list
through `next_sibling` (node.py is absent from the snapshot).  The fuel
bounds the walk; it is never exhausted on an acyclic chain shorter than
the arena. -/
def lastSibling (a : Arena) : Nat → Nat → Except Err Nat
  | 0, _ => .error .fuelError
  | fuel + 1, i =>
    match getNode a i with
    | none => .error .indexError
    | some n =>
      match n.nextSibling with
      | none => .ok i
      | some j => lastSibling a fuel j

/-- The ownership-transfer write of `add_child`: parent back-reference
set, sibling link reset. -/
def acLink (p : Nat) (cn : SolverNode) : SolverNode :=
  { cn with parent := some p, nextSibling := none }

/-- The first-child write of `add_child`. -/
def acFirst (c : Nat) (n : SolverNode) : SolverNode :=
  { n with child := some c, numChildren := n.numChildren + 1 }

/-- The append-after-last-sibling write of `add_child`. -/
def acNext (c : Nat) (n : SolverNode) : SolverNode :=
  { n with nextSibling := some c }

/-- The child-count write of `add_child`. -/
def acCount (n : SolverNode) : SolverNode :=
  { n with numChildren := n.numChildren + 1 }

/-- Modelled from the spec: `add_child` of node.py (absent from the
snapshot) per §3 — ownership of the child transfers to the parent: the
child's parent back-reference is set, its sibling link is reset, it is
appended after the last existing child (or becomes the first child), and
the parent's count of direct children grows by one. -/
def add_child (a : Arena) (p c : Nat) : Except Err Arena :=
  match getNode a p with
  | none => .error .indexError
  | some pn =>
    let a1 := modifyNode a c (acLink p)
    match pn.child with
    | none => .ok (modifyNode a1 p (acFirst c))
    | some firstc =>
      match lastSibling a1 (a1.length + 1) firstc with
      | .error e => .error e
      | .ok lastc =>
        let a2 := modifyNode a1 lastc (acNext c)
        .ok (modifyNode a2 p acCount)

/-- Embeds `SGFParser.__DummyNode.add_child` from src/sgf_tool/parser.py:
raises RuntimeError when the dummy root already has a child, otherwise
links the child as the dummy's first child without setting any parent
back-reference or child count. -/
def dummyAddChild (a : Arena) (d c : Nat) : Except Err Arena :=
  match getNode a d with
  | none => .error .indexError
  | some dn =>
    match dn.child with
    | some _ => .error .runtimeError
    | none => .ok (modifyNode a d (fun n => { n with child := some c }))

/-- Modelled from the spec: `detach` of node.py (absent from the
snapshot) — removes the node from its parent's child list, clearing the
parent back-reference; a node without a parent is left unchanged.  In
the parser it is only ever invoked on the dummy's child, whose parent
back-reference was never set, so it is a no-op there. -/
def detach (a : Arena) (i : Nat) : Arena :=
  match getNode a i with
  | none => a
  | some n =>
    match n.parent with
    | none => a
    | some p =>
      let unlinked :=
        match getNode a p with
        | none => a
        | some pn =>
          if pn.child = some i then
            modifyNode a p (fun m => { m with child := n.nextSibling, numChildren := m.numChildren - 1 })
          else
            match lastSibling a (a.length + 1) i with
            | _ => a
      modifyNode unlinked i (fun m => { m with parent := none, nextSibling := none })

/-- Items of the explicit parser stack in `SGFParser.parse_iterator`
(src/sgf_tool/parser.py): either a node reference or a left-parenthesis
token recorded with its offsets. -/
inductive StackItem where
  | nodeItem (i : Nat)
  | lparen (start stop : Nat)
  deriving DecidableEq, Repr

/-- Full state of the explicit automaton in `SGFParser.parse_iterator`:
the heap, the dummy-root index, the current node, the stack, the cached
tag and values, the five legal-next-category flags, and the list of
yielded nodes (most recent first). -/
structure PState where
  arena : Arena
  dummy : Nat
  current : Nat
  stack : List StackItem
  cacheTag : List Char
  cacheValues : Option (List (List Char))
  canLP : Bool
  canRP : Bool
  canSemi : Bool
  canTag : Bool
  canVal : Bool
  yields : List Nat
  deriving DecidableEq, Repr

/-- Embeds the "store tag and value to current node if needed" step of
`parse_iterator`: writes the cached values under the cached tag and
clears the cache; the boolean reports whether a write (and hence, at the
semicolon/right-paren call sites, a yield) happened. -/
def flushCache (st : PState) : PState × Bool :=
  match st.cacheValues with
  | none => (st, false)
  | some vs =>
    ({ st with
        arena := modifyNode st.arena st.current (fun n => { n with props := setKey st.cacheTag vs n.props }),
        cacheValues := none }, true)

/-- The flush-and-yield step shared by the semicolon and
right-parenthesis branches of `parse_iterator`: flush the cache and, if
a write happened, record the yield of the current node. -/
def flushYield (st : PState) : PState :=
  let fs := flushCache st
  if fs.2 then { fs.1 with yields := st.current :: fs.1.yields } else fs.1

/-- Pops stack items until the first left-parenthesis token, which is
popped as well; `none` when the stack is exhausted without one.  This is
the "pop until '('" loop of the right-parenthesis branch of
`parse_iterator`. -/
def popToLParen : List StackItem → Option (List StackItem)
  | [] => none
  | .lparen _ _ :: rest => some rest
  | .nodeItem _ :: rest => popToLParen rest

/-- Finds the topmost left-parenthesis token of the stack, as the
end-of-input branch of `parse_iterator` does; returns its offsets. -/
def findLParen : List StackItem → Option (Nat × Nat)
  | [] => none
  | .lparen s e :: _ => some (s, e)
  | .nodeItem _ :: rest => findLParen rest

/-- Embeds one iteration of the token loop of `SGFParser.parse_iterator`
from src/sgf_tool/parser.py, preserving the order of checks and state
updates of the source. -/
def processToken (st : PState) (t : SGFToken) : Except Err PState :=
  match t.type with
  | .LEFT_PAREN =>
    if st.canLP = false then .error (.unexpectedLeftParen t.start t.stop)
    else
      .ok { st with
            stack := StackItem.lparen t.start t.stop :: StackItem.nodeItem st.current :: st.stack,
            canLP := false, canRP := false, canSemi := true, canTag := false, canVal := false }
  | .RIGHT_PAREN =>
    if st.canRP = false then .error (.unexpectedRightParen t.start t.stop)
    else if st.stack = [] then .error (.unmatchedRightParen t.start t.stop)
    else
      let st1 := flushYield st
      match popToLParen st1.stack with
      | none => .error (.unmatchedRightParen t.start t.stop)
      | some rest =>
        match rest with
        | .nodeItem n :: rest' =>
          .ok { st1 with
                current := n, stack := rest',
                canLP := true, canRP := true, canSemi := false, canTag := false, canVal := false }
        | .lparen _ _ :: _ => .error .assertionError
        | [] => .error .indexError
  | .SEMICOLON =>
    if st.canSemi = false then .error (.unexpectedSemicolon t.start t.stop)
    else
      let st1 := flushYield st
      let newIdx := st1.arena.length
      let a1 := st1.arena ++ [({} : SolverNode)]
      let parent := st1.current
      match (if parent = st1.dummy then dummyAddChild a1 st1.dummy newIdx else add_child a1 parent newIdx) with
      | .error e => .error e
      | .ok a2 =>
        .ok { st1 with
              arena := a2, stack := StackItem.nodeItem parent :: st1.stack, current := newIdx,
              canLP := false, canRP := false, canSemi := false, canTag := true, canVal := false }
  | .TAG =>
    if st.canTag = false then .error (.unexpectedTag t.start t.stop)
    else
      let fs := flushCache st
      .ok { fs.1 with
            cacheTag := t.value,
            canLP := false, canRP := false, canSemi := false, canTag := false, canVal := true }
  | .VALUE | .EMPTY_VALUE =>
    if st.canVal = false then .error (.unexpectedValue t.start t.stop)
    else
      let v := (t.value.drop 1).dropLast
      .ok { st with
            cacheValues := some ((st.cacheValues.getD []) ++ [v]),
            canLP := true, canRP := true, canSemi := true, canTag := true, canVal := true }
  | .IGNORE => .ok st

/-- Runs the token loop of `parse_iterator` over a token list. -/
def processTokens (st : PState) : List SGFToken → Except Err PState
  | [] => .ok st
  | t :: ts =>
    match processToken st t with
    | .error e => .error e
    | .ok st' => processTokens st' ts

/-- Initial parser state: a fresh dummy root appended to the heap,
`next_can_be_left_paren` alone set, everything else empty. -/
def initPState (a : Arena) : PState :=
  { arena := a ++ [({} : SolverNode)], dummy := a.length, current := a.length, stack := [],
    cacheTag := [], cacheValues := none,
    canLP := true, canRP := false, canSemi := false, canTag := false, canVal := false,
    yields := [] }

/-- Embeds the end-of-input code of `parse_iterator`: a nonempty stack is
an unmatched-parenthesis SyntaxError naming the last unmatched
left-parenthesis offsets (or the whole input when no such token is on
the stack); on success the dummy's child is detached and the final heap,
dummy index and yielded nodes (in yield order) are returned. -/
def finishParse (sgfLen : Nat) (st : PState) : Except Err (Arena × Nat × List Nat) :=
  if st.stack ≠ [] then
    match findLParen st.stack with
    | some (s, e) => .error (.unmatchedLeftParen s e)
    | none => .error (.unmatchedParens 0 sgfLen)
  else
    match (getNode st.arena st.dummy).bind (fun n => n.child) with
    | none => .ok (st.arena, st.dummy, st.yields.reverse)
    | some r => .ok (detach st.arena r, st.dummy, st.yields.reverse)

/-- Embeds `SGFParser.parse_iterator` run to completion on a token
stream. -/
def runTokens (a : Arena) (sgfLen : Nat) (ts : List SGFToken) : Except Err (Arena × Nat × List Nat) :=
  match processTokens (initPState a) ts with
  | .error e => .error e
  | .ok st => finishParse sgfLen st

/-- Embeds `SGFParser.parse` from src/sgf_tool/parser.py: lexes the
text, exhausts the iterator, and returns the first yielded node
(`assert root is not None` becomes an AssertionError when nothing was
yielded). -/
def parse (a : Arena) (s : List Char) : Except Err (Arena × Nat) :=
  match lexAll s (s.length + 1) 0 with
  | .error e => .error e
  | .ok ts =>
    match runTokens a s.length ts with
    | .error e => .error e
    | .ok (a', _, yields) =>
      match yields with
      | [] => .error .assertionError
      | r :: _ => .ok (a', r)

/-- The search statistics of a node: running score, visit count,
status. -/
def stats3 (n : SolverNode) : Rat × Nat × BoardState := (n.winrate, n.visitCount, n.status)

/-- Number of left-parenthesis tokens on the parser stack. -/
def stackOpens : List StackItem → Nat
  | [] => 0
  | .lparen _ _ :: rest => stackOpens rest + 1
  | .nodeItem _ :: rest => stackOpens rest

/-- Running parenthesis depth of a token stream: `none` when a closing
group token arrives while no open group is pending, otherwise the number
of open groups still pending at the end of the stream. -/
def depthRun : Nat → List SGFToken → Option Nat
  | d, [] => some d
  | d, t :: ts =>
    match t.type with
    | .LEFT_PAREN => depthRun (d + 1) ts
    | .RIGHT_PAREN => if d = 0 then none else depthRun (d - 1) ts
    | _ => depthRun d ts

/-- Python `str.split(sep, 1)` for a one-character separator: text before
and after the first occurrence, or `none` when the separator is absent
(in which case the two-name tuple unpacking in `parse_nctu6_output`
raises ValueError). -/
def splitOnce (sep : Char) : List Char → Option (List Char × List Char)
  | [] => none
  | c :: rest =>
    if c = sep then some ([], rest)
    else (splitOnce sep rest).map (fun p => (c :: p.1, p.2))

/-- Text before and after the first occurrence of the (nonempty)
separator `sep`, or `none` when it does not occur. -/
def findSep (sep : List Char) : List Char → Option (List Char × List Char)
  | [] => none
  | c :: rest =>
    if sep.isPrefixOf (c :: rest) then some ([], (c :: rest).drop sep.length)
    else (findSep sep rest).map (fun p => (c :: p.1, p.2))

/-- Python `str.split(sep)` for a nonempty separator, fuelled by the
input length (each step consumes at least the separator); always returns
at least one piece. -/
def pySplit (sep : List Char) : Nat → List Char → List (List Char)
  | 0, s => [s]
  | fuel + 1, s =>
    match findSep sep s with
    | none => [s]
    | some (pre, post) => pre :: pySplit sep fuel post

/-- Python `str.strip()`: removes leading and trailing whitespace. -/
def pyStrip (s : List Char) : List Char :=
  ((s.dropWhile isSpaceChar).reverse.dropWhile isSpaceChar).reverse

/-- Applies `f` to the last element of a list. -/
def modifyLast {α : Type} (f : α → α) : List α → List α
  | [] => []
  | [x] => [f x]
  | x :: y :: xs => x :: modifyLast f (y :: xs)

/-- Embeds the comment-extraction tail of `parse_nctu6_output`
(src/Solver/utils.py): split the text after the 12-byte move fragment on
the literal "];C[", drop the first comment's leading 3 characters, then
strip the last comment and drop its final character. -/
def nctu6Comments (rest12 : List Char) : List (List Char) :=
  let comments := pySplit "];C[".toList (rest12.length + 1) rest12
  modifyLast (fun c => (pyStrip c).dropLast) (comments.modifyHead (fun c => c.drop 3))

/-- Embeds `parse_nctu6_output` from src/Solver/utils.py: split the
output on the first space into result token and remainder, re-parse the
first 12 bytes of the remainder wrapped in parentheses as a tree, and
decode the rest into the comment list. -/
def parse_nctu6_output (a : Arena) (output : List Char) : Except Err (Arena × List Char × Nat × List (List Char)) :=
  match splitOnce ' ' output with
  | none => .error .valueError
  | some (result, remainder) =>
    let sgf_string := remainder.take 12
    match parse a ('(' :: (sgf_string ++ [')'])) with
    | .error e => .error e
    | .ok (a', moveIdx) => .ok (a', result, moveIdx, nctu6Comments (remainder.drop 12))

/-- Embeds `EvaluationResult` from src/Solver/types.py.  `moves` is an
arena index (the head of a sibling-linked candidate list) or `none`;
the opaque `info` dictionary payload is not carried, the raw output
text is. -/
structure EvaluationResult where
  moves : Option Nat
  score : Rat
  state : BoardState
  raw : List Char
  deriving DecidableEq, Repr

/-- The score block of `NCTU6Engine._parse_result` (src/Solver/engine.py):
`score = 0.0; if comments: try: score = result_to_winrate(comments[0])
except ValueError: pass`. -/
def commentScore (comments : List (List Char)) : Rat :=
  match comments with
  | [] => 0
  | c0 :: _ =>
    match result_to_winrate c0 with
    | .ok w => w
    | .error _ => 0

/-- The state block of `NCTU6Engine._parse_result`: exact comparison of
the score with 1.0 and -1.0. -/
def scoreState (score : Rat) : BoardState :=
  if score = 1 then BoardState.BLACK_WIN
  else if score = -1 then BoardState.WHITE_WIN
  else BoardState.UNKNOWN

/-- Embeds `NCTU6Engine._parse_result` from src/Solver/engine.py: decode
the oracle output; look the first comment up in the vocabulary with the
ValueError swallowed (`except ValueError: pass`, score staying 0.0);
derive the state by exact comparison of the score with 1.0 and -1.0. -/
def parse_result (a : Arena) (output : List Char) : Except Err (Arena × EvaluationResult) :=
  match parse_nctu6_output a output with
  | .error e => .error e
  | .ok (a', _resultTok, moveIdx, comments) =>
    .ok (a', { moves := some moveIdx, score := commentScore comments,
               state := scoreState (commentScore comments), raw := output })

/-- Embeds `Tree.update_node_status` from src/Solver/tree.py: a node
without children is returned unchanged; for a node with children the
source collects the children and then reads `is_black_turn`, whose
defining block is commented out, so Python raises NameError before any
status is computed. -/
def update_node_status (a : Arena) (i : Nat) : Except Err Arena :=
  match getNode a i with
  | none => .error .indexError
  | some n =>
    if n.numChildren = 0 then .ok a
    else .error .nameError

/-- Embeds `Tree.backpropagate` from src/Solver/tree.py: walk from the
node to the root through parent links calling `update_node_status` at
each node; no statistic is read or written.  Fuel bounds the unbounded
while loop. -/
def backpropagate (a : Arena) : Nat → Nat → Except Err Arena
  | 0, _ => .error .fuelError
  | fuel + 1, i =>
    match update_node_status a i with
    | .error e => .error e
    | .ok a' =>
      match (getNode a' i).bind (fun n => n.parent) with
      | none => .ok a'
      | some p => backpropagate a' fuel p

/-- Argument values the sources pass to `tree.backpropagate`. -/
inductive CallArg where
  | node (i : Nat)
  | result (r : EvaluationResult)
  deriving DecidableEq, Repr

/-- Python-level call of the bound method `tree.backpropagate(*args)`:
the method is declared with a single parameter besides `self`
(src/Solver/tree.py), so any other arity raises TypeError before the
body runs. -/
def backpropagateCall (a : Arena) (fuel : Nat) : List CallArg → Except Err Arena
  | [.node i] => backpropagate a fuel i
  | _ => .error .typeError

/-- Exploration constant `self.c = 1.41421356237` of `MCTS`
(src/Solver/tree.py), read as an exact rational. -/
def mctsC : Rat := 141421356237 / 100000000000

/-- One evaluation of `nowscore` in the child loop of `MCTS.selection`
(src/Solver/tree.py): `ch.winrate / ch.visit_count` raises
ZeroDivisionError when the child is unvisited (Python evaluates this
left term first); `math.log(np)` raises ValueError (math domain error)
when the parent's visit count is zero; otherwise the value is
`winrate / visits + c * sqrt(log(np) / visits)`, whose transcendental
factor `sqrt(log(np) / visits)` is abstracted by the `sqrtlog`
parameter. -/
def nowscore (sqrtlog : Nat → Nat → Rat) (np : Nat) (ch : SolverNode) : Except Err Rat :=
  if ch.visitCount = 0 then .error .zeroDivisionError
  else if np = 0 then .error .valueError
  else .ok (ch.winrate / (ch.visitCount : Rat) + mctsC * sqrtlog np ch.visitCount)

/-- The inner child loop of `MCTS.selection`: walk the sibling chain
scoring each child, tracking the running best (`mxval`, initially -1e18)
and its index (`mxid`, initially -1); strict improvement keeps the first
best in child order. -/
def selectLoop (sqrtlog : Nat → Nat → Rat) (a : Arena) (np : Nat) :
    Nat → Option Nat → Nat → Int → Rat → Except Err Int
  | 0, _, _, _, _ => .error .fuelError
  | _ + 1, none, _, mxid, _ => .ok mxid
  | fuel + 1, some ci, idx, mxid, mxval =>
    match getNode a ci with
    | none => .error .indexError
    | some ch =>
      match nowscore sqrtlog np ch with
      | .error e => .error e
      | .ok sc =>
        selectLoop sqrtlog a np fuel ch.nextSibling (idx + 1)
          (if sc > mxval then (idx : Int) else mxid) (if sc > mxval then sc else mxval)

/-- Walks the sibling chain from `start` to its `k`-th element. -/
def chainAt (a : Arena) : Nat → Option Nat → Nat → Except Err Nat
  | 0, _, _ => .error .fuelError
  | _ + 1, none, _ => .error .indexError
  | _ + 1, some c, 0 => .ok c
  | fuel + 1, some c, k + 1 =>
    match getNode a c with
    | none => .error .indexError
    | some cn => chainAt a fuel cn.nextSibling k

/-- Modelled from the spec: `get_child(i)` of node.py (absent from the
snapshot) — §3's singly-linked child list walked to the i-th child;
an out-of-range or negative index is an error in this model. -/
def get_child (a : Arena) (n : Nat) (idx : Int) : Except Err Nat :=
  match getNode a n with
  | none => .error .indexError
  | some node =>
    if idx < 0 then .error .indexError
    else chainAt a (a.length + 1) node.child idx.toNat

/-- Embeds `MCTS.selection` from src/Solver/tree.py: descend while the
current node has children, stepping to the child of maximal `nowscore`;
the reached childless node is returned.  Fuel bounds the descent. -/
def selection (sqrtlog : Nat → Nat → Rat) (a : Arena) : Nat → Nat → Except Err Nat
  | 0, _ => .error .fuelError
  | fuel + 1, xd =>
    match getNode a xd with
    | none => .error .indexError
    | some n =>
      if n.numChildren = 0 then .ok xd
      else
        match selectLoop sqrtlog a n.visitCount (a.length + 1) n.child 0 (-1) (-(10 ^ 18 : Rat)) with
        | .error e => .error e
        | .ok mxid =>
          match get_child a xd mxid with
          | .error e => .error e
          | .ok c => selection sqrtlog a fuel c

/-- The while loop of `Tree.expand` collecting the sibling-linked
candidate list from `result.moves`. -/
def collectChain (a : Arena) : Nat → Option Nat → Except Err (List Nat)
  | 0, _ => .error .fuelError
  | _ + 1, none => .ok []
  | fuel + 1, some i =>
    match getNode a i with
    | none => .error .indexError
    | some n => (collectChain a fuel n.nextSibling).map (i :: ·)

/-- The for loop of `Tree.expand`: `node.add_child(move)` over the
collected list. -/
def addAll (a : Arena) (i : Nat) : List Nat → Except Err Arena
  | [] => .ok a
  | m :: ms =>
    match add_child a i m with
    | .error e => .error e
    | .ok a' => addAll a' i ms

/-- The status block of `Tree.expand` (src/Solver/tree.py): copy a
decisive `result.state` into `node.status`, leave it unchanged
otherwise. -/
def expandStatus (a : Arena) (i : Nat) (st : BoardState) : Arena :=
  if st = BoardState.BLACK_WIN then
    modifyNode a i (fun n => { n with status := BoardState.BLACK_WIN })
  else if st = BoardState.WHITE_WIN then
    modifyNode a i (fun n => { n with status := BoardState.WHITE_WIN })
  else a

/-- Embeds `Tree.expand` from src/Solver/tree.py: copy a decisive
`result.state` into `node.status` (leave it unchanged otherwise), then
adopt every node of the sibling-linked `result.moves` list as a child of
`node` through `add_child`. -/
def expand (a : Arena) (i : Nat) (result : EvaluationResult) : Except Err Arena :=
  let a1 := expandStatus a i result.state
  match result.moves with
  | none => .ok a1
  | some m =>
    match collectChain a1 (a1.length + 1) (some m) with
    | .error e => .error e
    | .ok ms => addAll a1 i ms

/-- The terminal EvaluationResult synthesised by `Solver.solve`
(src/Solver/solver.py) for a leaf whose status is already decided:
score +1.0 for BLACK_WIN else -1.0, no moves, state copied from the
leaf, the diagnostic comment dropped. -/
def terminalResult (st : BoardState) : EvaluationResult :=
  { moves := none,
    score := if st = BoardState.BLACK_WIN then 1 else -1,
    state := st,
    raw := [] }

/-- Embeds one iteration of the simulation loop of `Solver.solve`
(src/Solver/solver.py); `oracle` stands for `self.engine.evaluate`,
which runs the external NCTU6 subprocess.  The returned Bool is the
early-break condition `self.tree.root.status != UNKNOWN`; the `continue`
branch reports `false`.  The source's calls
`self.tree.backpropagate(leaf, result)` pass two arguments to a method
declared with one, a Python TypeError (`backpropagateCall`), and the
evaluated-parent branch reads `self.tree.collect_child_moves`, an
attribute `Tree` does not define, a Python AttributeError. -/
def solveIter (sqrtlog : Nat → Nat → Rat)
    (oracle : Arena → Nat → Except Err (Arena × EvaluationResult))
    (a : Arena) (root : Nat) : Except Err (Arena × Bool) :=
  match selection sqrtlog a (a.length + 1) root with
  | .error e => .error e
  | .ok leaf =>
    match getNode a leaf with
    | none => .error .indexError
    | some leafNode =>
      if leafNode.status ≠ BoardState.UNKNOWN then
        match backpropagateCall a (a.length + 1) [.node leaf, .result (terminalResult leafNode.status)] with
        | .error e => .error e
        | .ok a' => .ok (a', false)
      else
        match oracle a leaf with
        | .error e => .error e
        | .ok (a', result) =>
          match (getNode a' leaf).bind (fun n => n.parent) with
          | some _par => .error .attributeError
          | none =>
            match expand a' leaf result with
            | .error e => .error e
            | .ok a'' =>
              match backpropagateCall a'' (a''.length + 1) [.node leaf, .result result] with
              | .error e => .error e
              | .ok a3 =>
                match getNode a3 root with
                | none => .error .indexError
                | some rn => .ok (a3, rn.status ≠ BoardState.UNKNOWN)

/-- The character one position before `rest[n]`, where `prev` sits
immediately before `rest[0]`. -/
def prevAt (prev : Char) (rest : List Char) (n : Nat) : Option Char :=
  if n = 0 then some prev else rest.get? (n - 1)

/-- The failing tree for C1: a root (index 0) with exactly one child
(index 1), both with `visit_count == 0`, exactly the state of every
freshly expanded tree. -/
def selT : Arena := [{ child := some 1, numChildren := 1 }, {}]

/-- The failing tree for C2: a single root node at depth 0. -/
def bpT : Arena := [{}]

/-- The failing tree for C4: a single root that is already resolved
(status BLACK_WIN), so selection returns it as the leaf at once. -/
def slvT : Arena := [{ status := BoardState.BLACK_WIN }]

/-- The heap for the C5 witness: node 0 is the expanded node, nodes 1
and 2 form the freshly parsed sibling-linked candidate list. -/
def expT : Arena := [{}, { nextSibling := some 2 }, {}]

/-- The evaluation result for the C5 witness: candidate list starting at
node 1, decisive state BLACK_WIN. -/
def expR : EvaluationResult :=
  { moves := some 1, score := 0, state := BoardState.BLACK_WIN, raw := [] }

/-- The heap after expanding node 0 of `expT` with `expR`. -/
def expA : Arena :=
  [{ child := some 1, numChildren := 2, status := BoardState.BLACK_WIN },
   { parent := some 0, nextSibling := some 2 },
   { parent := some 0 }]

/-- Concrete oracle output for the C6 witness. -/
def decodeOut : List Char := "go ;B[ab]".toList

/-- The heap produced by parsing the C6 witness's 12-byte fragment:
the parser's dummy root and the one move node. -/
def decodeArena : Arena := [{ child := some 1 }, { props := [(['B'], [['a', 'b']])] }]

/-- Concrete oracle output with the unknown result token "foo" for the
C10 witness. -/
def engineOut : List Char := "go ;B[ab];W[cd]xxxfoo];C[ok]".toList

/-- The heap produced by parsing the C10 witness's 12-byte fragment. -/
def engineArena : Arena :=
  [{ child := some 1 },
   { props := [(['B'], [['a', 'b']])], child := some 2, numChildren := 1 },
   { props := [(['W'], [['c', 'd']])], parent := some 1 }]

/-- The evaluation result the engine returns for `engineOut`. -/
def engineRes : EvaluationResult :=
  { moves := some 1, score := 0, state := BoardState.UNKNOWN, raw := engineOut }

/-- The token stream of `(;B[aa])` for the C8 witness. -/
def bmT : List SGFToken :=
  [⟨.LEFT_PAREN, ['('], 0, 1⟩, ⟨.SEMICOLON, [';'], 1, 2⟩, ⟨.TAG, ['B'], 2, 3⟩,
   ⟨.VALUE, "[aa]".toList, 3, 7⟩, ⟨.RIGHT_PAREN, [')'], 7, 8⟩]

/-- The heap produced by a successful run over `bmT`. -/
def bmA : Arena := [{ child := some 1 }, { props := [(['B'], [['a', 'a']])] }]

/-! ### Helper lemmas -/

/-- A token outside the vocabulary makes `result_to_winrate` raise
ValueError. -/
theorem result_to_winrate_notin (s : List Char) (h : s ∉ winrateVocab) :
    result_to_winrate s = .error .valueError := by
  simp only [winrateVocab, List.mem_cons, List.not_mem_nil, or_false, not_or] at h
  obtain ⟨h1, h2, h3, h4, h5, h6, h7, h8, h9, h10, h11, h12⟩ := h
  rw [result_to_winrate, if_neg h1, if_neg h2, if_neg h3, if_neg h4, if_neg h5, if_neg h6,
    if_neg h7, if_neg h8, if_neg h9, if_neg h10, if_neg h11, if_neg h12]

/-- Characterisation of `splitOnce`: it splits at the first occurrence
of the separator. -/
theorem splitOnce_eq_some (sep : Char) :
    ∀ (s t r : List Char), splitOnce sep s = some (t, r) →
      s = t ++ sep :: r ∧ sep ∉ t := by
  intro s
  induction s with
  | nil => intro t r h; simp [splitOnce] at h
  | cons c s' ih =>
    intro t r h
    by_cases hc : c = sep
    · subst hc
      rw [splitOnce, if_pos rfl] at h
      have h2 := Option.some.inj h
      have ht : t = [] := (congrArg Prod.fst h2).symm
      have hr : r = s' := (congrArg Prod.snd h2).symm
      subst ht; subst hr
      simp
    · rw [splitOnce, if_neg hc] at h
      cases hsp : splitOnce sep s' with
      | none => rw [hsp] at h; simp at h
      | some q =>
        rw [hsp] at h
        simp only [Option.map_some'] at h
        have h2 := Option.some.inj h
        have ht : t = c :: q.1 := (congrArg Prod.fst h2).symm
        have hr : r = q.2 := (congrArg Prod.snd h2).symm
        subst ht; subst hr
        obtain ⟨hs, hmem⟩ := ih q.1 q.2 (by rw [hsp])
        constructor
        · rw [hs]; rfl
        · intro hmm
          rcases List.mem_cons.mp hmm with h3 | h3
          · exact hc h3.symm
          · exact hmem h3

/-- Index form of `List.drop`: element `m` of `l.drop n` is element
`n + m` of `l`. -/
theorem get?_drop_eq (s : List Char) (n m : Nat) : (s.drop n).get? m = s.get? (n + m) := by
  simp [List.get?_eq_getElem?]

/-- A list whose `n`-th element exists splits as that element consed on
the remaining drop. -/
theorem drop_cons_of_get? (s : List Char) (c : Char) (n : Nat) (h : s.get? n = some c) :
    s.drop n = c :: s.drop (n + 1) := by
  rw [List.get?_eq_getElem?] at h
  have hn : n < s.length := by
    by_contra hc
    rw [List.getElem?_eq_none (by omega)] at h
    exact absurd h (by simp)
  rw [List.drop_eq_getElem_cons hn]
  rw [List.getElem?_eq_getElem hn] at h
  rw [Option.some.inj h]

/-- Shifting `prevAt` across a cons. -/
theorem prevAt_cons (prev c : Char) (rest' : List Char) (n : Nat) :
    prevAt prev (c :: rest') (n + 1) = prevAt c rest' n := by
  cases n with
  | zero => simp [prevAt]
  | succ m => simp [prevAt]

/-- The lazy VALUE-rule scan `valueEnd` returns the position of the
FIRST closing bracket not immediately preceded by a backslash. -/
theorem valueEnd_first (rest : List Char) : ∀ (prev : Char) (j k : Nat),
    valueEnd prev rest j = some k →
    j ≤ k ∧ k - j < rest.length ∧ rest.get? (k - j) = some ']' ∧
      prevAt prev rest (k - j) ≠ some '\\' ∧
      ∀ m, m < k - j → ¬(rest.get? m = some ']' ∧ prevAt prev rest m ≠ some '\\') := by
  induction rest with
  | nil => intro prev j k h; simp [valueEnd] at h
  | cons c rest' ih =>
    intro prev j k h
    rw [valueEnd] at h
    by_cases hc : c = ']' ∧ prev ≠ '\\'
    · rw [if_pos hc] at h
      have hk : k = j := (Option.some.inj h).symm
      subst hk
      refine ⟨le_refl _, by simp, by simp [hc.1], ?_, fun m hm => absurd hm (by omega)⟩
      have hpa : prevAt prev (c :: rest') 0 = some prev := rfl
      rw [Nat.sub_self, hpa]
      exact fun he => hc.2 (Option.some.inj he)
    · rw [if_neg hc] at h
      obtain ⟨hjk, hlen, hget, hprev, hmin⟩ := ih c (j + 1) k h
      have hkj : k - j = (k - (j + 1)) + 1 := by omega
      refine ⟨by omega, by rw [hkj]; simp only [List.length_cons]; omega, ?_, ?_, ?_⟩
      · rw [hkj, List.get?_cons_succ]; exact hget
      · rw [hkj, prevAt_cons]; exact hprev
      · intro m hm
        rw [hkj] at hm
        cases m with
        | zero =>
          intro hcontra
          exact hc ⟨Option.some.inj hcontra.1,
            fun he => hcontra.2 (by simp [prevAt, he])⟩
        | succ m' =>
          intro hcontra
          rw [List.get?_cons_succ] at hcontra
          rw [prevAt_cons] at hcontra
          exact hmin m' (by omega) hcontra

/-- Modification keeps the heap size. -/
theorem modifyNode_length (a : Arena) (i : Nat) (f : SolverNode → SolverNode) :
    (modifyNode a i f).length = a.length := by
  rw [modifyNode]
  split
  · rfl
  · exact List.length_set a i _

/-- Reading back the modified index. -/
theorem getNode_modifyNode_self (a : Arena) (i : Nat) (f : SolverNode → SolverNode)
    (n : SolverNode) (h : getNode a i = some n) :
    getNode (modifyNode a i f) i = some (f n) := by
  rw [getNode] at h
  rw [modifyNode, h]
  simp only []
  rw [getNode]
  have hi : i < a.length := by
    rw [List.get?_eq_getElem?] at h
    by_contra hc
    rw [List.getElem?_eq_none (by omega)] at h
    exact Option.noConfusion h
  rw [List.get?_eq_getElem?, List.getElem?_set_self', List.getElem?_eq_getElem hi]
  rfl

/-- Reading any other index is unaffected. -/
theorem getNode_modifyNode_ne (a : Arena) (i k : Nat) (f : SolverNode → SolverNode)
    (hk : k ≠ i) : getNode (modifyNode a i f) k = getNode a k := by
  rw [modifyNode]
  split
  · rfl
  · rw [getNode, getNode]
    simp [List.get?_eq_getElem?, List.getElem?_set_ne (Ne.symm hk)]

/-- A field projection that the update function does not touch is
unchanged at every index. -/
theorem modifyNode_map_proj {β : Type} (a : Arena) (i : Nat) (f : SolverNode → SolverNode)
    (g : SolverNode → β) (hf : ∀ n, g (f n) = g n) (k : Nat) :
    (getNode (modifyNode a i f) k).map g = (getNode a k).map g := by
  by_cases hk : k = i
  · subst hk
    cases hg : getNode a k with
    | none =>
      rw [getNode] at hg
      rw [modifyNode, hg]
      simp only []
      rw [getNode, hg]
    | some n =>
      rw [getNode_modifyNode_self a k f n hg]
      simp only [Option.map_some']
      rw [hf n]
  · rw [getNode_modifyNode_ne a i k f hk]

/-- Adoption keeps the heap size. -/
theorem add_child_length (a : Arena) (p c : Nat) (a' : Arena) (h : add_child a p c = .ok a') :
    a'.length = a.length := by
  rw [add_child] at h
  split at h
  · exact Except.noConfusion h
  · rename_i pn hpn
    simp only [] at h
    split at h
    · rw [← Except.ok.inj h]
      simp only [modifyNode_length]
    · rename_i firstc hfc
      split at h
      · exact Except.noConfusion h
      · rw [← Except.ok.inj h]
        simp only [modifyNode_length]

/-- Adoption only rewires links: the search statistics of every node
are untouched. -/
theorem add_child_stats (a : Arena) (p c : Nat) (a' : Arena) (h : add_child a p c = .ok a') :
    ∀ k, (getNode a' k).map stats3 = (getNode a k).map stats3 := by
  intro k
  rw [add_child] at h
  split at h
  · exact Except.noConfusion h
  · rename_i pn hpn
    simp only [] at h
    split at h
    · rw [← Except.ok.inj h]
      rw [modifyNode_map_proj _ p (acFirst c) stats3 (fun n => rfl) k,
        modifyNode_map_proj a c (acLink p) stats3 (fun n => rfl) k]
    · rename_i firstc hfc
      split at h
      · exact Except.noConfusion h
      · rename_i lastc hlast
        rw [← Except.ok.inj h]
        rw [modifyNode_map_proj _ p acCount stats3 (fun n => rfl) k,
          modifyNode_map_proj _ lastc (acNext c) stats3 (fun n => rfl) k,
          modifyNode_map_proj a c (acLink p) stats3 (fun n => rfl) k]

/-- Adoption changes the parent back-reference of no node other than
the adopted child. -/
theorem add_child_parent_ne (a : Arena) (p c : Nat) (a' : Arena)
    (h : add_child a p c = .ok a') (k : Nat) (hk : k ≠ c) :
    (getNode a' k).map (fun n => n.parent) = (getNode a k).map (fun n => n.parent) := by
  rw [add_child] at h
  split at h
  · exact Except.noConfusion h
  · rename_i pn hpn
    simp only [] at h
    split at h
    · rw [← Except.ok.inj h]
      rw [modifyNode_map_proj _ p (acFirst c) (fun n => n.parent) (fun n => rfl) k,
        getNode_modifyNode_ne a c k (acLink p) hk]
    · rename_i firstc hfc
      split at h
      · exact Except.noConfusion h
      · rename_i lastc hlast
        rw [← Except.ok.inj h]
        rw [modifyNode_map_proj _ p acCount (fun n => n.parent) (fun n => rfl) k,
          modifyNode_map_proj _ lastc (acNext c) (fun n => n.parent) (fun n => rfl) k,
          getNode_modifyNode_ne a c k (acLink p) hk]

/-- Adoption sets the adopted child's parent back-reference to the
adopting node. -/
theorem add_child_parent_self (a : Arena) (p c : Nat) (a' : Arena)
    (h : add_child a p c = .ok a') (hc : c < a.length) :
    (getNode a' c).map (fun n => n.parent) = some (some p) := by
  obtain ⟨cn, hcn⟩ : ∃ cn, getNode a c = some cn := by
    rw [getNode, List.get?_eq_getElem?, List.getElem?_eq_getElem hc]
    exact ⟨a[c], rfl⟩
  rw [add_child] at h
  split at h
  · exact Except.noConfusion h
  · rename_i pn hpn
    simp only [] at h
    split at h
    · rw [← Except.ok.inj h]
      rw [modifyNode_map_proj _ p (acFirst c) (fun n => n.parent) (fun n => rfl) c,
        getNode_modifyNode_self a c (acLink p) cn hcn]
      rfl
    · rename_i firstc hfc
      split at h
      · exact Except.noConfusion h
      · rename_i lastc hlast
        rw [← Except.ok.inj h]
        rw [modifyNode_map_proj _ p acCount (fun n => n.parent) (fun n => rfl) c,
          modifyNode_map_proj _ lastc (acNext c) (fun n => n.parent) (fun n => rfl) c,
          getNode_modifyNode_self a c (acLink p) cn hcn]
        rfl

/-- What a whole adoption loop does: statistics preserved everywhere,
parent back-references preserved off the list and set to the adopting
node on the list, heap size kept. -/
theorem addAll_facts : ∀ (ms : List Nat) (a : Arena) (i : Nat) (a' : Arena),
    addAll a i ms = .ok a' → ms.Nodup → (∀ m ∈ ms, m < a.length) →
    a'.length = a.length ∧
    (∀ k, (getNode a' k).map stats3 = (getNode a k).map stats3) ∧
    (∀ k, k ∉ ms → (getNode a' k).map (fun n => n.parent) = (getNode a k).map (fun n => n.parent)) ∧
    (∀ m ∈ ms, (getNode a' m).map (fun n => n.parent) = some (some i)) := by
  intro ms
  induction ms with
  | nil =>
    intro a i a' h _ _
    rw [addAll] at h
    rw [← Except.ok.inj h]
    exact ⟨rfl, fun k => rfl, fun k _ => rfl, fun m hm => absurd hm (List.not_mem_nil m)⟩
  | cons m ms' ih =>
    intro a i a' h hnd hlt
    rw [addAll] at h
    split at h
    · exact Except.noConfusion h
    · rename_i a1 hac
      have hlen1 : a1.length = a.length := add_child_length a i m a1 hac
      obtain ⟨hlen, hstats, hpne, hpmem⟩ := ih a1 i a' h (List.Nodup.of_cons hnd)
        (fun k hk => by rw [hlen1]; exact hlt k (List.mem_cons_of_mem m hk))
      refine ⟨by rw [hlen, hlen1], ?_, ?_, ?_⟩
      · intro k
        rw [hstats k, add_child_stats a i m a1 hac k]
      · intro k hk
        have hk1 : k ∉ ms' := fun hc => hk (List.mem_cons_of_mem m hc)
        have hk2 : k ≠ m := fun hc => hk (hc ▸ List.mem_cons_self m ms')
        rw [hpne k hk1, add_child_parent_ne a i m a1 hac k hk2]
      · intro m' hm'
        rcases List.mem_cons.mp hm' with hm'' | hm''
        · subst hm''
          have hnotin : m' ∉ ms' := (List.nodup_cons.mp hnd).1
          rw [hpne m' hnotin]
          exact add_child_parent_self a i m' a1 hac (hlt m' (List.mem_cons_self m' ms'))
        · exact hpmem m' hm''

/-- A link-preserving modification does not change what the candidate
collection loop sees. -/
theorem collectChain_congr (a : Arena) (i : Nat) (f : SolverNode → SolverNode)
    (hf : ∀ n, (f n).nextSibling = n.nextSibling) :
    ∀ (fuel : Nat) (o : Option Nat), collectChain (modifyNode a i f) fuel o = collectChain a fuel o := by
  intro fuel
  induction fuel with
  | zero => intro o; rfl
  | succ fu ih =>
    intro o
    cases o with
    | none => rfl
    | some j =>
      rw [collectChain, collectChain]
      by_cases hj : j = i
      · subst hj
        cases hg : getNode a j with
        | none =>
          have hng : getNode (modifyNode a j f) j = none := by
            rw [getNode] at hg
            rw [modifyNode, hg]
            simp only []
            rw [getNode, hg]
          rw [hng]
        | some n =>
          rw [getNode_modifyNode_self a j f n hg]
          simp only []
          rw [hf n, ih]
      · rw [getNode_modifyNode_ne a i j f hj]
        cases hg : getNode a j with
        | none => rfl
        | some n =>
          simp only []
          rw [ih]

/-- The status write of `expand` keeps the heap size. -/
theorem expandStatus_length (a : Arena) (i : Nat) (st : BoardState) :
    (expandStatus a i st).length = a.length := by
  rw [expandStatus]
  split_ifs <;> simp [modifyNode_length]

/-- The status write of `expand` does not move any sibling link. -/
theorem collectChain_expandStatus (a : Arena) (i : Nat) (st : BoardState)
    (fuel : Nat) (o : Option Nat) :
    collectChain (expandStatus a i st) fuel o = collectChain a fuel o := by
  rw [expandStatus]
  split_ifs
  · exact collectChain_congr a i (fun n => { n with status := BoardState.BLACK_WIN })
      (fun n => rfl) fuel o
  · exact collectChain_congr a i (fun n => { n with status := BoardState.WHITE_WIN })
      (fun n => rfl) fuel o
  · rfl

/-- The status write of `expand` leaves every other node unchanged. -/
theorem expandStatus_getNode_ne (a : Arena) (i k : Nat) (st : BoardState) (hk : k ≠ i) :
    getNode (expandStatus a i st) k = getNode a k := by
  rw [expandStatus]
  split_ifs
  · exact getNode_modifyNode_ne a i k _ hk
  · exact getNode_modifyNode_ne a i k _ hk
  · rfl

/-- The status write of `expand` at the node itself: BLACK_WIN and
WHITE_WIN are copied, anything else leaves the status alone. -/
theorem expandStatus_status_self (a : Arena) (i : Nat) (st : BoardState)
    (n : SolverNode) (h : getNode a i = some n) :
    (getNode (expandStatus a i st) i).map (fun x => x.status) =
      some (if st = BoardState.BLACK_WIN then BoardState.BLACK_WIN
        else if st = BoardState.WHITE_WIN then BoardState.WHITE_WIN else n.status) := by
  rw [expandStatus]
  split_ifs with h1 h2
  · rw [getNode_modifyNode_self a i _ n h]
    rfl
  · rw [getNode_modifyNode_self a i _ n h]
    rfl
  · rw [h]
    rfl

/-- Equality of statistics projections transfers to the status
component. -/
theorem option_map_stats_status (x y : Option SolverNode)
    (h : x.map stats3 = y.map stats3) :
    x.map (fun n => n.status) = y.map (fun n => n.status) := by
  cases x with
  | none => cases y with
    | none => rfl
    | some m => simp at h
  | some n => cases y with
    | none => simp at h
    | some m =>
      simp only [Option.map_some', Option.some.injEq, stats3, Prod.mk.injEq] at h
      simp [h.2.2]

/-- Flushing the cache leaves the parser stack untouched. -/
theorem flushCache_stack (st : PState) : (flushCache st).1.stack = st.stack := by
  rw [flushCache]
  rcases st with ⟨ar, d, cur, stk, ct, cv, l1, l2, l3, l4, l5, ys⟩
  cases cv <;> rfl

/-- Flushing and yielding leaves the parser stack untouched. -/
theorem flushYield_stack (st : PState) : (flushYield st).stack = st.stack := by
  rw [flushYield]
  split
  · exact flushCache_stack st
  · exact flushCache_stack st

/-- Popping to the enclosing left parenthesis removes exactly one left
parenthesis from the stack. -/
theorem popToLParen_opens : ∀ (stk rest : List StackItem),
    popToLParen stk = some rest → stackOpens stk = stackOpens rest + 1 := by
  intro stk
  induction stk with
  | nil => intro rest h; simp [popToLParen] at h
  | cons it stk' ih =>
    intro rest h
    cases it with
    | lparen s e =>
      rw [popToLParen] at h
      rw [stackOpens, Option.some.inj h]
    | nodeItem n =>
      rw [popToLParen] at h
      rw [stackOpens]
      exact ih rest h

/-- A left-parenthesis token pushes one open-group marker. -/
theorem processToken_stack_lp (st st1 : PState) (t : SGFToken)
    (h : processToken st t = .ok st1) (ht : t.type = .LEFT_PAREN) :
    st1.stack = StackItem.lparen t.start t.stop :: StackItem.nodeItem st.current :: st.stack := by
  rw [processToken, ht] at h
  simp only [] at h
  by_cases hcan : st.canLP = false
  · rw [if_pos hcan] at h; exact Except.noConfusion h
  · rw [if_neg hcan] at h
    rw [← Except.ok.inj h]

/-- An accepted right-parenthesis token removes exactly one open-group
marker from the stack. -/
theorem processToken_stack_rp (st st1 : PState) (t : SGFToken)
    (h : processToken st t = .ok st1) (ht : t.type = .RIGHT_PAREN) :
    stackOpens st.stack = stackOpens st1.stack + 1 := by
  rw [processToken, ht] at h
  simp only [] at h
  by_cases h1 : st.canRP = false
  · rw [if_pos h1] at h; exact Except.noConfusion h
  · rw [if_neg h1] at h
    by_cases h2 : st.stack = []
    · rw [if_pos h2] at h; exact Except.noConfusion h
    · rw [if_neg h2] at h
      rw [flushYield_stack] at h
      split at h
      · exact Except.noConfusion h
      · rename_i rest hpop
        split at h
        · rename_i n rest'
          have hs1 : st1.stack = rest' := by rw [← Except.ok.inj h]
          have h3 := popToLParen_opens st.stack _ hpop
          rw [stackOpens] at h3
          rw [hs1, h3]
        · exact Except.noConfusion h
        · exact Except.noConfusion h

/-- Every other accepted token leaves the number of open-group markers
unchanged. -/
theorem processToken_stack_other (st st1 : PState) (t : SGFToken)
    (h : processToken st t = .ok st1) (ht1 : t.type ≠ .LEFT_PAREN)
    (ht2 : t.type ≠ .RIGHT_PAREN) :
    stackOpens st1.stack = stackOpens st.stack := by
  cases htt : t.type with
  | LEFT_PAREN => exact absurd htt ht1
  | RIGHT_PAREN => exact absurd htt ht2
  | SEMICOLON =>
    rw [processToken, htt] at h
    simp only [] at h
    by_cases h1 : st.canSemi = false
    · rw [if_pos h1] at h; exact Except.noConfusion h
    · rw [if_neg h1] at h
      split at h
      · exact Except.noConfusion h
      · rename_i a2 hadd
        have hs1 : st1.stack = StackItem.nodeItem (flushYield st).current :: (flushYield st).stack := by
          rw [← Except.ok.inj h]
        rw [hs1, stackOpens, flushYield_stack]
  | TAG =>
    rw [processToken, htt] at h
    simp only [] at h
    by_cases h1 : st.canTag = false
    · rw [if_pos h1] at h; exact Except.noConfusion h
    · rw [if_neg h1] at h
      have hs1 : st1.stack = (flushCache st).1.stack := by rw [← Except.ok.inj h]
      rw [hs1, flushCache_stack]
  | VALUE =>
    rw [processToken, htt] at h
    simp only [] at h
    by_cases h1 : st.canVal = false
    · rw [if_pos h1] at h; exact Except.noConfusion h
    · rw [if_neg h1] at h
      rw [← Except.ok.inj h]
  | EMPTY_VALUE =>
    rw [processToken, htt] at h
    simp only [] at h
    by_cases h1 : st.canVal = false
    · rw [if_pos h1] at h; exact Except.noConfusion h
    · rw [if_neg h1] at h
      rw [← Except.ok.inj h]
  | IGNORE =>
    rw [processToken, htt] at h
    simp only [] at h
    rw [← Except.ok.inj h]

/-- The central invariant: a successful run of the token loop makes the
running parenthesis depth track the number of open-group markers on the
stack — in particular it never goes negative. -/
theorem processTokens_depth : ∀ (ts : List SGFToken) (st st' : PState),
    processTokens st ts = .ok st' →
    depthRun (stackOpens st.stack) ts = some (stackOpens st'.stack) := by
  intro ts
  induction ts with
  | nil =>
    intro st st' h
    rw [processTokens] at h
    rw [depthRun, Except.ok.inj h]
  | cons t ts' ih =>
    intro st st' h
    rw [processTokens] at h
    split at h
    · exact Except.noConfusion h
    · rename_i st1 hpt
      rw [depthRun]
      cases htt : t.type with
      | LEFT_PAREN =>
        simp only []
        have hlp := processToken_stack_lp st st1 t hpt htt
        have : stackOpens st1.stack = stackOpens st.stack + 1 := by
          rw [hlp, stackOpens, stackOpens]
        rw [← this]
        exact ih st1 st' h
      | RIGHT_PAREN =>
        simp only []
        have hrp := processToken_stack_rp st st1 t hpt htt
        rw [if_neg (by omega : ¬stackOpens st.stack = 0)]
        rw [show stackOpens st.stack - 1 = stackOpens st1.stack by omega]
        exact ih st1 st' h
      | SEMICOLON =>
        simp only []
        rw [← processToken_stack_other st st1 t hpt (by simp [htt]) (by simp [htt])]
        exact ih st1 st' h
      | TAG =>
        simp only []
        rw [← processToken_stack_other st st1 t hpt (by simp [htt]) (by simp [htt])]
        exact ih st1 st' h
      | VALUE =>
        simp only []
        rw [← processToken_stack_other st st1 t hpt (by simp [htt]) (by simp [htt])]
        exact ih st1 st' h
      | EMPTY_VALUE =>
        simp only []
        rw [← processToken_stack_other st st1 t hpt (by simp [htt]) (by simp [htt])]
        exact ih st1 st' h
      | IGNORE =>
        simp only []
        rw [← processToken_stack_other st st1 t hpt (by simp [htt]) (by simp [htt])]
        exact ih st1 st' h

/-! ### Claim theorems -/

/-- C7: the result vocabulary maps the certain-win tokens "B:w" and
"W:w" to +1 and -1 exactly, the intermediate categories to the fixed
constants ±0.9, ±0.7, ±0.5, ±0.3 and 0, and every token outside the
vocabulary to a ValueError rather than a score. -/
theorem result_vocabulary_exact :
    (∀ s : List Char, s ∉ winrateVocab → result_to_winrate s = .error .valueError) ∧
    result_to_winrate "B:w".toList = .ok 1 ∧
    result_to_winrate "W:w".toList = .ok (-1) ∧
    result_to_winrate "B:a_w".toList = .ok (9/10) ∧
    result_to_winrate "W:a_w".toList = .ok (-(9/10)) ∧
    result_to_winrate "a-b:B3".toList = .ok (7/10) ∧
    result_to_winrate "a-b:w3".toList = .ok (-(7/10)) ∧
    result_to_winrate "a-b:B2".toList = .ok (5/10) ∧
    result_to_winrate "a-b:w2".toList = .ok (-(5/10)) ∧
    result_to_winrate "a-b:B1".toList = .ok (3/10) ∧
    result_to_winrate "a-b:w1".toList = .ok (-(3/10)) ∧
    result_to_winrate "a-b:stable".toList = .ok 0 ∧
    result_to_winrate "a-b:unstable".toList = .ok 0 :=
  ⟨result_to_winrate_notin, rfl, rfl, rfl, rfl, rfl, rfl, rfl, rfl, rfl, rfl, rfl, rfl⟩

/-- Witness for C7 at the concrete unknown token "bogus". -/
theorem result_vocabulary_exact_witness :
    "bogus".toList ∉ winrateVocab ∧
    result_to_winrate "bogus".toList = .error .valueError :=
  ⟨by decide, result_vocabulary_exact.1 "bogus".toList (by decide)⟩

/-- C1 (code defect): on a tree whose root has an unvisited child,
`MCTS.selection` does not treat the child as having score +infinity; the
first `nowscore` evaluation divides `ch.winrate` by `ch.visit_count == 0`
and raises ZeroDivisionError, for every value of the transcendental
exploration factor.  Selection therefore fails on every node with an
unvisited child, contradicting the claim. -/
theorem selection_unvisited_child_crashes (sqrtlog : Nat → Nat → Rat) :
    selection sqrtlog selT (selT.length + 1) 0 = .error .zeroDivisionError := rfl

/-- C2 (code defect): `Tree.backpropagate` walks the path but updates no
statistic: from the single root (depth d = 0) it returns the tree
unchanged, so the root's `visit_count` stays 0 instead of being
incremented by exactly 1, and no score is accumulated (the method does
not even accept a score).  Moreover the orchestrator's only calls pass
(leaf, result) — two arguments to a one-parameter method — which is a
TypeError before any update runs. -/
theorem backpropagate_updates_nothing :
    backpropagate bpT (bpT.length + 1) 0 = .ok bpT ∧
    (getNode bpT 0).map (fun n => n.visitCount) = some 0 ∧
    backpropagateCall bpT (bpT.length + 1)
      [.node 0, .result (terminalResult BoardState.BLACK_WIN)] = .error .typeError ∧
    backpropagate [{ child := some 1, numChildren := 1 }, { parent := some 0 }] 3 1 =
      .error .nameError := by
  refine ⟨rfl, rfl, rfl, rfl⟩

/-- C3 (code defect): the status recomputation never happens.  For a
node with children, `Tree.update_node_status` reads the undefined
variable `is_black_turn` (its defining block is commented out in
src/Solver/tree.py) and raises NameError; for a childless node it
returns without touching any status.  So no node's status is ever set by
backpropagation, contradicting the claimed OR/AND proof rule being
applied at every ancestor. -/
theorem update_node_status_name_error :
    (∀ (a : Arena) (i : Nat) (n : SolverNode), getNode a i = some n →
      n.numChildren ≠ 0 → update_node_status a i = .error .nameError) ∧
    (∀ (a : Arena) (i : Nat) (n : SolverNode), getNode a i = some n →
      n.numChildren = 0 → update_node_status a i = .ok a) := by
  constructor
  · intro a i n hn hc
    simp [update_node_status, hn, hc]
  · intro a i n hn hc
    simp [update_node_status, hn, hc]

/-- Witness for C3 on a concrete two-node tree: the root (one child)
raises NameError, the leaf (no children) changes nothing. -/
theorem update_node_status_name_error_witness :
    update_node_status [{ child := some 1, numChildren := 1 }, { parent := some 0 }] 0 =
      .error .nameError ∧
    update_node_status [{ child := some 1, numChildren := 1 }, { parent := some 0 }] 1 =
      .ok [{ child := some 1, numChildren := 1 }, { parent := some 0 }] :=
  ⟨update_node_status_name_error.1
      [{ child := some 1, numChildren := 1 }, { parent := some 0 }] 0
      { child := some 1, numChildren := 1 } rfl (by decide),
   update_node_status_name_error.2
      [{ child := some 1, numChildren := 1 }, { parent := some 0 }] 1
      { parent := some 0 } rfl rfl⟩

/-- C4 (code defect): in a `solve` iteration whose selected leaf is
already resolved, the code synthesises the terminal score (+1 for
BLACK_WIN, -1 otherwise) but the call
`self.tree.backpropagate(leaf, result)` passes two arguments to the
one-parameter `Tree.backpropagate`, so the iteration raises TypeError —
it neither backpropagates nor proceeds to the next iteration.  The
outcome is the same for every oracle (the oracle is indeed not
invoked), and for every exploration factor. -/
theorem solve_resolved_leaf_type_error :
    (∀ (sqrtlog : Nat → Nat → Rat)
       (oracle : Arena → Nat → Except Err (Arena × EvaluationResult)),
       solveIter sqrtlog oracle slvT 0 = .error .typeError) ∧
    (terminalResult BoardState.BLACK_WIN).score = 1 ∧
    (terminalResult BoardState.WHITE_WIN).score = -1 ∧
    (terminalResult BoardState.BLACK_WIN).moves = none ∧
    (terminalResult BoardState.WHITE_WIN).moves = none := by
  refine ⟨fun sqrtlog oracle => rfl, rfl, rfl, rfl, rfl⟩

/-- C5: expansion copies a decisive `result.state` (BLACK_WIN or
WHITE_WIN) into the node's status and leaves the status unchanged
otherwise; and every node of the sibling-linked candidate list becomes a
child of the node — its parent back-reference set to the node — with its
search statistics untouched by the adoption, so a freshly allocated
candidate (winrate 0, visit_count 0, status UNKNOWN, the
`SolverNode.__init__` defaults used by the oracle-result parser) still
carries exactly those after adoption. -/
theorem expand_adopts (a : Arena) (i : Nat) (r : EvaluationResult) (a' : Arena) (ms : List Nat)
    (hexp : expand a i r = .ok a')
    (hch : collectChain a (a.length + 1) r.moves = .ok ms)
    (hnd : ms.Nodup) (hlt : ∀ m ∈ ms, m < a.length) (hi : i ∉ ms) (hilen : i < a.length) :
    ((getNode a' i).map (fun n => n.status) =
      (getNode a i).map (fun n =>
        if r.state = BoardState.BLACK_WIN then BoardState.BLACK_WIN
        else if r.state = BoardState.WHITE_WIN then BoardState.WHITE_WIN else n.status)) ∧
    (∀ m ∈ ms, (getNode a' m).map (fun n => n.parent) = some (some i)) ∧
    (∀ m ∈ ms, (getNode a' m).map stats3 = (getNode a m).map stats3) := by
  obtain ⟨ni, hni⟩ : ∃ ni, getNode a i = some ni := by
    rw [getNode, List.get?_eq_getElem?, List.getElem?_eq_getElem hilen]
    exact ⟨a[i], rfl⟩
  rw [expand] at hexp
  cases hm : r.moves with
  | none =>
    rw [hm] at hexp hch
    simp only [] at hexp
    rw [collectChain] at hch
    have hms := Except.ok.inj hch
    refine ⟨?_, ?_, ?_⟩
    · rw [← Except.ok.inj hexp]
      rw [expandStatus_status_self a i r.state ni hni, hni]
      rfl
    · intro m' hm'
      rw [← hms] at hm'
      exact absurd hm' (List.not_mem_nil m')
    · intro m' hm'
      rw [← hms] at hm'
      exact absurd hm' (List.not_mem_nil m')
  | some m =>
    rw [hm] at hexp hch
    simp only [] at hexp
    rw [expandStatus_length, collectChain_expandStatus, hch] at hexp
    simp only [] at hexp
    obtain ⟨hlen, hstats, hpne, hpmem⟩ := addAll_facts ms (expandStatus a i r.state) i a' hexp
      hnd (fun m' hm' => by rw [expandStatus_length]; exact hlt m' hm')
    refine ⟨?_, fun m' hm' => hpmem m' hm', ?_⟩
    · rw [option_map_stats_status _ _ (hstats i),
        expandStatus_status_self a i r.state ni hni, hni]
      rfl
    · intro m' hm'
      have hmi : m' ≠ i := fun hc => hi (hc ▸ hm')
      rw [hstats m', expandStatus_getNode_ne a i m' r.state hmi]

/-- Witness for C5 on a concrete expansion: both candidates become
children of node 0 keeping their fresh statistics, and node 0 takes the
decisive status. -/
theorem expand_adopts_witness :
    expand expT 0 expR = .ok expA ∧
    collectChain expT (expT.length + 1) expR.moves = .ok [1, 2] ∧
    (getNode expA 1).map (fun n => n.parent) = some (some 0) ∧
    (getNode expA 2).map (fun n => n.parent) = some (some 0) ∧
    (getNode expA 1).map stats3 = some (0, 0, BoardState.UNKNOWN) ∧
    (getNode expA 0).map (fun n => n.status) = some BoardState.BLACK_WIN := by
  have h := expand_adopts expT 0 expR expA [1, 2] rfl rfl (by decide) (by decide)
    (by decide) (by decide)
  refine ⟨rfl, rfl, h.2.1 1 (by decide), h.2.1 2 (by decide), ?_, ?_⟩
  · rw [h.2.2 1 (by decide)]
    rfl
  · rw [h.1]
    rfl

/-- C6: decoding an oracle output that contains a space splits it on the
first space (the token has no space, and token + space + remainder
reassemble the output), re-parses exactly the first 12 characters of the
remainder wrapped in parentheses as a tree, and turns the rest into the
comment list: split on the literal "];C[", the first comment's leading 3
characters removed, the last comment stripped and its trailing closing
bracket removed. -/
theorem oracle_output_decode
    (a : Arena) (out tok rest : List Char) (a' : Arena) (m : Nat)
    (hsplit : splitOnce ' ' out = some (tok, rest))
    (hparse : parse a ('(' :: (rest.take 12 ++ [')'])) = .ok (a', m)) :
    parse_nctu6_output a out = .ok (a', tok, m, nctu6Comments (rest.drop 12)) ∧
    out = tok ++ ' ' :: rest ∧ ' ' ∉ tok ∧
    nctu6Comments (rest.drop 12) =
      modifyLast (fun c => (pyStrip c).dropLast)
        ((pySplit "];C[".toList ((rest.drop 12).length + 1) (rest.drop 12)).modifyHead
          (fun c => c.drop 3)) := by
  refine ⟨?_, (splitOnce_eq_some ' ' out tok rest hsplit).1,
    (splitOnce_eq_some ' ' out tok rest hsplit).2, rfl⟩
  simp [parse_nctu6_output, hsplit, hparse]

/-- Witness for C6 at a concrete oracle output. -/
theorem oracle_output_decode_witness :
    splitOnce ' ' decodeOut = some ("go".toList, ";B[ab]".toList) ∧
    parse [] ('(' :: (";B[ab]".toList.take 12 ++ [')'])) = .ok (decodeArena, 1) ∧
    parse_nctu6_output [] decodeOut =
      .ok (decodeArena, "go".toList, 1, nctu6Comments (";B[ab]".toList.drop 12)) :=
  ⟨rfl, rfl,
   (oracle_output_decode [] decodeOut "go".toList ";B[ab]".toList decodeArena 1 rfl rfl).1⟩

/-- C10: the engine's decoder swallows the vocabulary-lookup ValueError:
with an unrecognised first comment it still returns a result, with score
0.0 and state UNKNOWN — indistinguishable from a neutral "stable"
evaluation; and on every successfully decoded output the state is
BLACK_WIN exactly when the score equals 1.0, WHITE_WIN exactly when it
equals -1.0, and UNKNOWN exactly otherwise. -/
theorem engine_unknown_token_neutral :
    (∀ (a : Arena) (out : List Char) (a' : Arena) (tok : List Char) (m : Nat)
       (c0 : List Char) (cs : List (List Char)),
       parse_nctu6_output a out = .ok (a', tok, m, c0 :: cs) →
       c0 ∉ winrateVocab →
       parse_result a out =
         .ok (a', { moves := some m, score := 0, state := BoardState.UNKNOWN, raw := out })) ∧
    (∀ (a : Arena) (out : List Char) (a' : Arena) (r : EvaluationResult),
       parse_result a out = .ok (a', r) →
       ((r.state = BoardState.BLACK_WIN ↔ r.score = 1) ∧
        (r.state = BoardState.WHITE_WIN ↔ r.score = -1) ∧
        (r.state = BoardState.UNKNOWN ↔ (r.score ≠ 1 ∧ r.score ≠ -1)))) := by
  constructor
  · intro a out a' tok m c0 cs hdec hc0
    have hcs : commentScore (c0 :: cs) = 0 := by
      simp [commentScore, result_to_winrate_notin c0 hc0]
    simp [parse_result, hdec, hcs, scoreState]
  · intro a out a' r h
    rw [parse_result] at h
    split at h
    · exact absurd h (by simp)
    · rename_i a2 tok m comments heq
      have h2 := Option.some.inj (congrArg Except.toOption h)
      have hr : r = { moves := some m, score := commentScore comments,
                      state := scoreState (commentScore comments), raw := out } :=
        (congrArg Prod.snd h2).symm
      subst hr
      by_cases h1 : commentScore comments = 1
      · simp [scoreState, h1]
        norm_num
      · by_cases hm1 : commentScore comments = -1
        · simp [scoreState, h1, hm1]
          norm_num
          decide
        · simp [scoreState, h1, hm1]

/-- Witness for C10 at a concrete oracle output whose first comment
"foo" is outside the vocabulary. -/
theorem engine_unknown_token_neutral_witness :
    "foo".toList ∉ winrateVocab ∧
    parse_result [] engineOut = .ok (engineArena, engineRes) ∧
    (engineRes.state = BoardState.BLACK_WIN ↔ engineRes.score = 1) := by
  have h1 := engine_unknown_token_neutral.1 [] engineOut engineArena "go".toList 1
    "foo".toList ["ok".toList] rfl (by decide)
  exact ⟨by decide, h1, (engine_unknown_token_neutral.2 [] engineOut engineArena engineRes h1).1⟩

/-- C9 counterexample: on the bracketed text `[a\\]]` (the two middle
characters are backslashes) the regex lexer's PROPERTY_VALUE token runs
to offset 6: the closing bracket at offset 4 is skipped because a
backslash immediately precedes it, even though that backslash is itself
preceded by a backslash.  Escaping in which a backslash also escapes the
backslash itself — the behaviour of the character-by-character
`SGFLexerManual` loop in the same source file, embedded as
`manualValueLoop` — closes the value at offset 4 (stream position 5)
with value text `a\`.  So the claim's "a backslash ... also escapes the
backslash itself" is false of the lexer the parser uses. -/
theorem lexer_value_escape_counterexample :
    next_token ['[', 'a', '\\', '\\', ']', ']'] 0 =
      .ok (some ⟨.VALUE, ['[', 'a', '\\', '\\', ']', ']'], 0, 6⟩) ∧
    manualValueLoop false [] ['a', '\\', '\\', ']', ']'] 1 = .ok (['a', '\\'], 5) ∧
    (6 : Nat) ≠ 5 :=
  ⟨rfl, rfl, by decide⟩

/-- C9 (amended): a bracketed property value is lexed as a single
PROPERTY_VALUE token whose span runs to the first closing bracket not
immediately preceded by a backslash — a backslash escapes the closing
bracket but does not escape the backslash itself; the empty value `[]`
is accepted as an EMPTY_VALUE token; and the lexer fails with an
offset-tagged LexicalError when the current character matches no token
rule. -/
theorem lexer_value_token_spec :
    (∀ (s : List Char) (i : Nat) (t : SGFToken),
       next_token s i = .ok (some t) → t.type = .VALUE →
       t.start = i ∧ i + 3 ≤ t.stop ∧
       s.get? (t.stop - 1) = some ']' ∧ s.get? (t.stop - 2) ≠ some '\\' ∧
       (∀ k, i + 2 ≤ k → k < t.stop - 1 →
         ¬(s.get? k = some ']' ∧ s.get? (k - 1) ≠ some '\\')) ∧
       t.value = (s.drop i).take (t.stop - i)) ∧
    (∀ (s : List Char) (i : Nat), s.get? i = some '[' → s.get? (i + 1) = some ']' →
       next_token s i = .ok (some ⟨.EMPTY_VALUE, ['[', ']'], i, i + 2⟩)) ∧
    (∀ (s : List Char) (i : Nat) (c : Char), s.get? i = some c →
       c ≠ '(' → c ≠ ')' → c ≠ ';' → isWordChar c = false → c ≠ '[' →
       isSpaceChar c = false → next_token s i = .error (.lexical i (i + 1))) := by
  refine ⟨?_, ?_, ?_⟩
  · intro s i t h htype
    rw [next_token] at h
    split at h
    · simp at h
    · rename_i c hgi
      by_cases h1 : c = '('
      · rw [if_pos h1] at h
        simp only [Except.ok.injEq, Option.some.injEq] at h
        subst h; simp at htype
      · rw [if_neg h1] at h
        by_cases h2 : c = ')'
        · rw [if_pos h2] at h
          simp only [Except.ok.injEq, Option.some.injEq] at h
          subst h; simp at htype
        · rw [if_neg h2] at h
          by_cases h3 : c = ';'
          · rw [if_pos h3] at h
            simp only [Except.ok.injEq, Option.some.injEq] at h
            subst h; simp at htype
          · rw [if_neg h3] at h
            by_cases h4 : (s.drop i).takeWhile isWordChar ≠ []
            · rw [if_pos h4] at h
              simp only [Except.ok.injEq, Option.some.injEq] at h
              subst h; simp at htype
            · rw [if_neg h4] at h
              by_cases h5 : c = '[' ∧ s.get? (i + 1) = some ']'
              · rw [if_pos h5] at h
                simp only [Except.ok.injEq, Option.some.injEq] at h
                subst h; simp at htype
              · rw [if_neg h5] at h
                by_cases h6 : c = '['
                · rw [if_pos h6] at h
                  split at h
                  · simp at h
                  · rename_i c1 rest hdrop
                    split at h
                    case _ j hve =>
                      simp only [Except.ok.injEq, Option.some.injEq] at h
                      subst h
                      obtain ⟨hjk, hlen, hget, hprev, hmin⟩ :=
                        valueEnd_first rest c1 (i + 2) j hve
                      have hsk : ∀ n, rest.get? n = s.get? (i + 2 + n) := by
                        intro n
                        have hd := get?_drop_eq s (i + 1) (n + 1)
                        rw [hdrop, List.get?_cons_succ] at hd
                        rw [hd]
                        congr 1
                        omega
                      have hpk : ∀ n, prevAt c1 rest n = s.get? (i + 1 + n) := by
                        intro n
                        cases n with
                        | zero =>
                          have hd := get?_drop_eq s (i + 1) 0
                          rw [hdrop] at hd
                          simp only [List.get?_cons_zero] at hd
                          have hpa : prevAt c1 rest 0 = some c1 := rfl
                          rw [hpa]
                          exact hd
                        | succ m =>
                          have : prevAt c1 rest (m + 1) = rest.get? m := rfl
                          rw [this, hsk m]
                          congr 1
                          omega
                      refine ⟨rfl, by simp only []; omega, ?_, ?_, ?_, rfl⟩
                      · show s.get? (j + 1 - 1) = some ']'
                        rw [show j + 1 - 1 = j by omega]
                        have := hsk (j - (i + 2))
                        rw [show i + 2 + (j - (i + 2)) = j by omega] at this
                        rw [← this]
                        exact hget
                      · show s.get? (j + 1 - 2) ≠ some '\\'
                        rw [show j + 1 - 2 = j - 1 by omega]
                        have := hpk (j - (i + 2))
                        rw [show i + 1 + (j - (i + 2)) = j - 1 by omega] at this
                        rw [← this]
                        exact hprev
                      · intro k hk1 hk2 hcontra
                        have hk2' : k < j := by
                          simp only [] at hk2
                          omega
                        refine hmin (k - (i + 2)) (by omega) ?_
                        constructor
                        · rw [hsk (k - (i + 2)), show i + 2 + (k - (i + 2)) = k by omega]
                          exact hcontra.1
                        · rw [hpk (k - (i + 2)), show i + 1 + (k - (i + 2)) = k - 1 by omega]
                          exact hcontra.2
                    case _ => simp at h
                · rw [if_neg h6] at h
                  by_cases h7 : (s.drop i).takeWhile isSpaceChar ≠ []
                  · rw [if_pos h7] at h
                    simp only [Except.ok.injEq, Option.some.injEq] at h
                    subst h; simp at htype
                  · rw [if_neg h7] at h
                    simp at h
  · intro s i hbr hbr2
    have hw : ((s.drop i).takeWhile isWordChar = []) := by
      rw [drop_cons_of_get? s '[' i hbr, List.takeWhile_cons]
      simp [isWordChar]
    rw [next_token]
    split
    · rename_i hnone
      rw [hbr] at hnone
      exact absurd hnone (by simp)
    · rename_i c hsome
      rw [hbr] at hsome
      have hc : c = '[' := (Option.some.inj hsome).symm
      subst hc
      rw [if_neg (by decide : ¬('[' : Char) = '('),
        if_neg (by decide : ¬('[' : Char) = ')'),
        if_neg (by decide : ¬('[' : Char) = ';')]
      simp only [hw, ne_eq, not_true_eq_false, if_false, ite_false]
      rw [if_pos ⟨trivial, hbr2⟩]
  · intro s i c hgi hnp hnp2 hns hw hb hsp
    have hdrop : s.drop i = c :: s.drop (i + 1) := drop_cons_of_get? s c i hgi
    have hw' : ((s.drop i).takeWhile isWordChar = []) := by
      rw [hdrop, List.takeWhile_cons, hw]
      simp
    have hsp' : ((s.drop i).takeWhile isSpaceChar = []) := by
      rw [hdrop, List.takeWhile_cons, hsp]
      simp
    rw [next_token]
    split
    · rename_i hnone
      rw [hgi] at hnone
      exact absurd hnone (by simp)
    · rename_i c' hsome
      rw [hgi] at hsome
      have hc : c' = c := (Option.some.inj hsome).symm
      subst hc
      rw [if_neg hnp, if_neg hnp2, if_neg hns]
      simp only [hw', ne_eq, not_true_eq_false, if_false, ite_false]
      rw [if_neg (fun hcontra => hb hcontra.1), if_neg hb]
      simp only [hsp', ne_eq, not_true_eq_false, if_false, ite_false]

/-- C8: every successful run of the parser over a token stream has
balanced group tokens — the running depth never goes negative (no
closing token without a matching open group) and ends at zero (no open
group left unmatched); contrapositively, a stream violating either
condition can never return a tree.  Concretely, a surplus closing
parenthesis fails with the offset-tagged unmatched/unexpected
SyntaxError, and a left parenthesis still open at end of input fails
with the unmatched-left SyntaxError at its own offsets. -/
theorem parser_boundary_matching :
    (∀ (a : Arena) (len : Nat) (ts : List SGFToken) (r : Arena × Nat × List Nat),
       runTokens a len ts = .ok r → depthRun 0 ts = some 0) ∧
    parse [] "(;B[aa]))".toList = .error (.unmatchedRightParen 8 9) ∧
    parse [] "(;B[aa]".toList = .error (.unmatchedLeftParen 0 1) ∧
    parse [] ")".toList = .error (.unexpectedRightParen 0 1) := by
  refine ⟨?_, rfl, rfl, rfl⟩
  intro a len ts r h
  rw [runTokens] at h
  split at h
  · exact Except.noConfusion h
  · rename_i st hrun
    rw [finishParse] at h
    by_cases hst : st.stack ≠ []
    · rw [if_pos hst] at h
      split at h
      · exact Except.noConfusion h
      · exact Except.noConfusion h
    · rw [if_neg hst] at h
      push_neg at hst
      have hd := processTokens_depth ts (initPState a) st hrun
      rw [show (initPState a).stack = [] from rfl] at hd
      rw [hst] at hd
      rw [stackOpens] at hd
      exact hd

/-- Witness for C8: a concrete successful run whose stream is balanced. -/
theorem parser_boundary_matching_witness :
    runTokens [] 8 bmT = .ok (bmA, 0, [1]) ∧ depthRun 0 bmT = some 0 :=
  ⟨rfl, parser_boundary_matching.1 [] 8 bmT (bmA, 0, [1]) rfl⟩

/-- Witness for C9 instantiating every part: the VALUE characterisation
at `[a]`, the empty value at `[]`, and the LexicalError at `!`. -/
theorem lexer_value_token_spec_witness :
    ("[a]".toList.get? 2 = some ']' ∧ "[a]".toList.get? 1 ≠ some '\\') ∧
    next_token "[]".toList 0 = .ok (some ⟨.EMPTY_VALUE, ['[', ']'], 0, 2⟩) ∧
    next_token "!".toList 0 = .error (.lexical 0 1) := by
  have h := lexer_value_token_spec.1 "[a]".toList 0 ⟨.VALUE, "[a]".toList, 0, 3⟩ rfl rfl
  exact ⟨⟨h.2.2.1, h.2.2.2.1⟩,
    lexer_value_token_spec.2.1 "[]".toList 0 rfl rfl,
    lexer_value_token_spec.2.2 "!".toList 0 '!' rfl (by decide) (by decide) (by decide)
      (by decide) (by decide) (by decide)⟩

end C6S
